import Mathlib

/-!
# Verification of the Inventory-Search core

Shallow embedding of the repository's core:

* the C# query engine (`InventoryService.SearchInventoryAsync`,
  `InventoryService.GetPeakAvailabilityAsync`, `MockInventoryRepository.FindByPartNumberAsync`),
* the TypeScript client cache (`InventorySearchApiService`: `cacheKey`, `remember`,
  and the get-or-create paths of `search` / `getPeakAvailability`),
* the Angular orchestrator pipeline (`IndexPageComponent.ngOnInit`), modelled as an
  explicit event-step machine (debounce / switchMap semantics as generation counting).

Machine integers are modelled as `Int`/`Nat`; C# `DateTime` values as integer ticks;
stable LINQ / JS sorts as `List.insertionSort` (insertion sort is stable, matching
`OrderBy`/`OrderByDescending`/`Array.prototype.sort` on the orderings used here).
-/

namespace InventorySearch

/-- JS `Array.prototype.join(sep)` / the joining used by `cacheKey`. -/
def joinSep (sep : String) : List String → String
  | [] => ""
  | [a] => a
  | a :: rest => a ++ sep ++ joinSep sep rest

/-- C# `string.Contains` (ordinal): substring containment. -/
def containsSubstr (s sub : String) : Bool := decide (sub.data <:+: s.data)

/-! Character-level string primitives.  The Lean core versions (`String.trim`,
`String.map`, `String.splitOn`) iterate over byte positions and do not reduce
definitionally, so the embedding uses equivalent structurally-recursive
`List Char` implementations.  Whitespace is `Char.isWhitespace`; case mapping
is the ASCII `Char.toUpper`/`Char.toLower` (invariant-culture case mapping
restricted to the ASCII range, which covers all data in this system). -/

/-- C# `Trim()` / JS `trim()`: strip leading and trailing whitespace. -/
def trimStr (s : String) : String :=
  ⟨((s.data.dropWhile Char.isWhitespace).reverse.dropWhile Char.isWhitespace).reverse⟩

/-- C# `ToUpperInvariant()` / JS `toUpperCase()`. -/
def toUpperStr (s : String) : String := ⟨s.data.map Char.toUpper⟩

/-- C# `ToLowerInvariant()` / JS `toLowerCase()`. -/
def toLowerStr (s : String) : String := ⟨s.data.map Char.toLower⟩

/-- C# `Split(sep)`: split on a single separator character, keeping empty parts. -/
def splitChar (sep : Char) : List Char → List (List Char)
  | [] => [[]]
  | c :: cs =>
    if c = sep then [] :: splitChar sep cs
    else
      match splitChar sep cs with
      | [] => [[c]]
      | g :: gs => (c :: g) :: gs

def splitOnChar (sep : Char) (s : String) : List String :=
  (splitChar sep s.data).map (fun l => ⟨l⟩)

/-- C# `string.Contains(char)`. -/
def containsChar (s : String) (c : Char) : Bool := s.data.contains c

/-- C# `string.IsNullOrWhiteSpace` on a nullable string. -/
def isNullOrWhiteSpace (s : Option String) : Bool := trimStr (s.getD "") == ""

/-- Lexicographic (code-point) comparison on character lists: the ordering of
JS default `Array.prototype.sort` on strings and of ordinal string comparison.
(Defined structurally so that it evaluates definitionally; Lean's `String`
order instances do not reduce.) -/
def charListLe : List Char → List Char → Bool
  | [], _ => true
  | _ :: _, [] => false
  | a :: as, b :: bs => if a < b then true else if b < a then false else charListLe as bs

def strLe (a b : String) : Bool := charListLe a.data b.data

/-- `strLe` as a sort relation. -/
def strLeRel (a b : String) : Prop := strLe a b = true

instance : DecidableRel strLeRel := by
  intro a b; unfold strLeRel; infer_instance

/-- First-occurrence deduplication (the key order produced by LINQ `GroupBy`). -/
def dedupFirst (seen : List String) : List String → List String
  | [] => []
  | k :: ks => if k ∈ seen then dedupFirst seen ks else k :: dedupFirst (k :: seen) ks

/-! ## Data model (C# `InventoryServer.Models`)

`InventoryItem` as consumed by the service code; C# nullable reference/value
fields are `Option`s.  The `Lots` collection is never read by any modelled
operation and is omitted. -/

structure InventoryItem where
  PartNumber : Option String
  SupplierSku : Option String
  Description : Option String
  Branch : Option String
  AvailableQty : Int
  Uom : Option String
  LeadTimeDays : Option Int
  LastPurchaseDate : Option Int
  deriving Repr, DecidableEq

instance : Inhabited InventoryItem :=
  ⟨⟨none, none, none, none, 0, none, none, none⟩⟩

/-- C# `int.MaxValue`, used for absent lead times in the sort key. -/
def intMaxValue : Int := 2147483647

/-- `DateTime.MinValue` modelled as tick `0` (all stored dates are nonnegative ticks). -/
def dateTimeMinValue : Int := 0

structure InventorySearchRequest where
  Criteria : Option String
  By : Option String
  Branches : Option String
  OnlyAvailable : Bool
  Page : Int
  Size : Int
  SortParam : Option String
  deriving Repr, DecidableEq

structure SearchResult where
  Total : Nat
  Items : List InventoryItem
  deriving Repr, DecidableEq

structure BranchAvailability where
  Branch : String
  Qty : Int
  deriving Repr, DecidableEq

structure AvailabilityResult where
  PartNumber : Option String
  TotalAvailable : Int
  Branches : List BranchAvailability
  deriving Repr, DecidableEq

/-! ## Query engine: `SearchInventoryAsync` (src/unnamed/part_000, lines 20-87) -/

/-- The `by`-dispatched criteria predicate (the `switch` at lines 32-37). -/
def byMatch (byField critUpper : String) (i : InventoryItem) : Bool :=
  match byField with
  | "Description" => containsSubstr (toUpperStr (i.Description.getD "")) critUpper
  | "SupplierSKU" => containsSubstr (toUpperStr (i.SupplierSku.getD "")) critUpper
  | _ => containsSubstr (toUpperStr (i.PartNumber.getD "")) critUpper

/-- The branch set parsed from the comma-separated `Branches` parameter
(`Split(',', RemoveEmptyEntries | TrimEntries)` then upper-cased). -/
def branchSetOf (branches : Option String) : List String :=
  (((splitOnChar ',' (branches.getD "")).map trimStr).filter (· != "")).map toUpperStr

/-- The three conjunctive filters of `SearchInventoryAsync` (lines 27-52), applied
sequentially exactly as in the source. -/
def searchFiltered (all : List InventoryItem) (request : InventorySearchRequest) :
    List InventoryItem :=
  let criteria := trimStr (request.Criteria.getD "")
  let byField := trimStr (request.By.getD "PartNumber")
  let q1 := if criteria == "" then all
    else all.filter (byMatch byField (toUpperStr criteria))
  let q2 := if isNullOrWhiteSpace request.Branches then q1
    else q1.filter (fun i => (branchSetOf request.Branches).contains (toUpperStr (i.Branch.getD "")))
  if request.OnlyAvailable then q2.filter (fun i => decide (0 < i.AvailableQty)) else q2

/-- Sort-specification parsing (lines 54-62): `field:direction`, defaults
`partNumber`/`asc`. -/
def parseSortSpec (sortOpt : Option String) : String × String :=
  if isNullOrWhiteSpace sortOpt ∨ ¬ containsChar (sortOpt.getD "") ':' then ("partNumber", "asc")
  else
    let parts := (splitOnChar ':' (sortOpt.getD "")).map trimStr
    (toLowerStr (parts.headD ""),
      if 1 < parts.length then toLowerStr (parts.getD 1 "") else "asc")

/-- Sort keys: the `object` returned by the key selector (lines 64-73). Each
search uses a single variant, so cross-variant comparisons never occur. -/
inductive SortKey where
  | str : String → SortKey
  | int : Int → SortKey
  | date : Int → SortKey
  deriving Repr, DecidableEq

def SortKey.le : SortKey → SortKey → Bool
  | .str a, .str b => strLe a b
  | .int a, .int b => decide (a ≤ b)
  | .date a, .date b => decide (a ≤ b)
  | _, _ => true

/-- The key selector chosen by the (lower-cased) sort field (lines 64-73). -/
def sortKeyOf (sortField : String) (i : InventoryItem) : SortKey :=
  match sortField with
  | "description" => .str (i.Description.getD "")
  | "branch" => .str (i.Branch.getD "")
  | "availableqty" => .int i.AvailableQty
  | "uom" => .str (i.Uom.getD "")
  | "leadtimedays" => .int (i.LeadTimeDays.getD intMaxValue)
  | "lastpurchasedate" => .date (i.LastPurchaseDate.getD dateTimeMinValue)
  | _ => .str (i.PartNumber.getD "")

/-- The ordering used by `OrderBy`/`OrderByDescending` (line 75): a stable sort
in which `a` may precede `b` iff `key a ≤ key b` (resp. `≥` when descending). -/
def searchLe (sortField sortDir : String) (a b : InventoryItem) : Prop :=
  if sortDir == "desc" then SortKey.le (sortKeyOf sortField b) (sortKeyOf sortField a) = true
  else SortKey.le (sortKeyOf sortField a) (sortKeyOf sortField b) = true

instance (sortField sortDir : String) : DecidableRel (searchLe sortField sortDir) := by
  intro a b; unfold searchLe; infer_instance

/-- The filtered-and-sorted record sequence (lines 27-75). -/
def searchSorted (all : List InventoryItem) (request : InventorySearchRequest) :
    List InventoryItem :=
  let spec := parseSortSpec request.SortParam
  List.insertionSort (searchLe spec.1 spec.2) (searchFiltered all request)

/-- `var size = request.Size <= 0 ? 20 : request.Size` (line 78). -/
def effSize (request : InventorySearchRequest) : Int :=
  if request.Size ≤ 0 then 20 else request.Size

/-- `var page = request.Page < 0 ? 0 : request.Page` (line 79). -/
def effPage (request : InventorySearchRequest) : Int :=
  if request.Page < 0 then 0 else request.Page

/-- Two's-complement wrap into the signed 32-bit range: C# unchecked `int`
arithmetic. -/
def int32Wrap (n : Int) : Int := (n + 2 ^ 31) % 2 ^ 32 - 2 ^ 31

/-- `SearchInventoryAsync` (lines 20-87): count, clamp page/size, slice.
The skip offset `page * size` is computed in unchecked 32-bit `int`
arithmetic, so it wraps; `Enumerable.Skip` of a negative (wrapped) count
skips nothing, which `Int.toNat` of the wrapped value reproduces. -/
def searchInventory (all : List InventoryItem) (request : InventorySearchRequest) :
    SearchResult :=
  let sorted := searchSorted all request
  let total := sorted.length
  let skip := int32Wrap (effPage request * effSize request)
  let items := (sorted.drop skip.toNat).take (effSize request).toNat
  ⟨total, items⟩

/-- The conjunction of the three filters, as one predicate (spec §4.1: the
criteria/branch/availability filters are conjunctive). -/
def matchesQuery (request : InventorySearchRequest) (i : InventoryItem) : Bool :=
  (if trimStr (request.Criteria.getD "") == "" then true
    else byMatch (trimStr (request.By.getD "PartNumber"))
      (toUpperStr (trimStr (request.Criteria.getD ""))) i)
  && (if isNullOrWhiteSpace request.Branches then true
    else (branchSetOf request.Branches).contains (toUpperStr (i.Branch.getD "")))
  && (if request.OnlyAvailable then decide (0 < i.AvailableQty) else true)

/-! ## Query engine: `GetPeakAvailabilityAsync` (src/unnamed/part_000, lines 89-121)
with the repository lookup `FindByPartNumberAsync` (src/unnamed/part_002, lines 71-78). -/

/-- `MockInventoryRepository.FindByPartNumberAsync`: exact, case-insensitive match on
the trimmed, upper-cased part number (a `null` part number matches nothing). -/
def findByPartNumber (items : List InventoryItem) (partNumber : String) : List InventoryItem :=
  let normalized := toUpperStr (trimStr partNumber)
  items.filter (fun i =>
    match i.PartNumber with
    | none => false
    | some p => toUpperStr (trimStr p) == normalized)

/-- The per-branch aggregation of `GetPeakAvailabilityAsync` (lines 105-111):
LINQ `GroupBy` on the normalized branch code (groups in first-occurrence order,
members in original order) followed by a per-group quantity sum. -/
def groupBranches (ms : List InventoryItem) : List BranchAvailability :=
  let keyOf := fun (i : InventoryItem) => toUpperStr (i.Branch.getD "")
  (dedupFirst [] (ms.map keyOf)).map (fun k =>
    ⟨k, (((ms.filter (fun i => keyOf i == k)).map (·.AvailableQty)).sum)⟩)

/-- Descending-by-quantity ordering on branch aggregates (`OrderByDescending(b => b.Qty)`,
line 112); the sort is stable, so equal quantities keep grouping order. -/
def branchQtyGe (a b : BranchAvailability) : Prop := b.Qty ≤ a.Qty

instance : DecidableRel branchQtyGe := by
  intro a b; unfold branchQtyGe; infer_instance

/-- `GetPeakAvailabilityAsync` (lines 89-121).  The C# `ArgumentException` for a
blank part number is an `Except.error`. -/
def getPeakAvailability (records : List InventoryItem) (partNumber : String) :
    Except String AvailabilityResult :=
  if isNullOrWhiteSpace (some partNumber) then .error "partNumber is required"
  else
    let found := findByPartNumber records partNumber
    if found.isEmpty then
      .ok ⟨some (trimStr partNumber), 0, []⟩
    else
      let grouped := List.insertionSort branchQtyGe (groupBranches found)
      .ok ⟨(found.head?.getD default).PartNumber,
        (grouped.map (·.Qty)).sum, grouped⟩

/-! ## Client cache (inventory-search-api.service.ts)

`CacheEntry` keeps the key and absolute expiry; the shared observable handle is
not needed by the cached-capacity/eviction/failure claims and is omitted.
Times are millisecond ticks (`Date.now()`), modelled as `Nat`. -/

def CACHE_TTL_MS : Nat := 60000
def CACHE_MAX_ENTRIES : Nat := 5

structure CacheEntry where
  key : String
  expiry : Nat
  deriving Repr, DecidableEq

/-- Ascending-expiry ordering used by `remember`'s eviction sort
(`(a, b) => a.expiry - b.expiry`). -/
def entryExpiryLe (a b : CacheEntry) : Prop := a.expiry ≤ b.expiry

instance : DecidableRel entryExpiryLe := by
  intro a b; unfold entryExpiryLe; infer_instance

/-- `remember` (inventory-search-api.service.ts, lines 140-167): drop expired
entries, evict earliest-expiry entries when at capacity, append the new entry,
then shift from the front while over capacity. -/
def remember (now : Nat) (cache : List CacheEntry) (key : String) : List CacheEntry :=
  let expiry := now + CACHE_TTL_MS
  let next := cache.filter (fun c => decide (now < c.expiry))
  let next := if CACHE_MAX_ENTRIES ≤ next.length then
      (List.insertionSort entryExpiryLe next).drop (next.length - CACHE_MAX_ENTRIES + 1)
    else next
  let next := next ++ [⟨key, expiry⟩]
  next.drop (next.length - CACHE_MAX_ENTRIES)

/-- The shared get-or-create path of `search` (lines 50-89) and
`getPeakAvailability` (lines 103-129): filter expired entries, return the hit,
or issue the upstream call and `remember` the entry.  `upstream` records
whether an upstream HTTP request was issued (cache miss). -/
structure CacheStepResult where
  cache : List CacheEntry
  upstream : Bool
  deriving Repr, DecidableEq

def cacheGetOrCreate (now : Nat) (cache : List CacheEntry) (key : String) : CacheStepResult :=
  let cache1 := cache.filter (fun e => decide (now < e.expiry))
  match cache1.find? (fun e => e.key == key) with
  | some _ => ⟨cache1, false⟩
  | none => ⟨remember now cache1 key, true⟩

/-- The failure handler in the `tap` of both requests (lines 77-82 and 118-122):
when the envelope is failed, every entry for that key is dropped. -/
def completeFailure (cache : List CacheEntry) (key : String) : List CacheEntry :=
  cache.filter (fun e => e.key != key)

/-! ## Client query model and `cacheKey`

The client model types (`InventorySearchQuery`, `SearchBy`,
`InventoryItemSortableFields`) live in `models/inventory-search.models.ts`,
which is not part of the provided sources; their shape is modelled from the
spec (§3): `by ∈ {PartNumber, Description, SupplierSKU}`, sort field ranging
over the sortable columns, sort direction `asc`/`desc`.  `cacheKey` itself is
embedded from `inventory-search-api.service.ts`, lines 177-192. -/

inductive SearchBy where
  | partNumber | description | supplierSKU
  deriving Repr, DecidableEq, Fintype

def SearchBy.toStr : SearchBy → String
  | .partNumber => "PartNumber"
  | .description => "Description"
  | .supplierSKU => "SupplierSKU"

inductive SortableField where
  | partNumber | description | branch | availableQty | uom | leadTimeDays | lastPurchaseDate
  deriving Repr, DecidableEq, Fintype

def SortableField.toStr : SortableField → String
  | .partNumber => "partNumber"
  | .description => "description"
  | .branch => "branch"
  | .availableQty => "availableQty"
  | .uom => "uom"
  | .leadTimeDays => "leadTimeDays"
  | .lastPurchaseDate => "lastPurchaseDate"

inductive SortDir where
  | asc | desc
  deriving Repr, DecidableEq, Fintype

def SortDir.toStr : SortDir → String
  | .asc => "asc"
  | .desc => "desc"

structure InventorySearchQuery where
  criteria : String
  searchBy : SearchBy
  branches : List String
  onlyAvailable : Bool
  page : Int
  size : Int
  sort : Option (SortableField × SortDir)
  deriving Repr, DecidableEq

/-- The sort component of the key: `field:direction`, or the `nosort` sentinel. -/
def sortKeyStr : Option (SortableField × SortDir) → String
  | some (f, d) => f.toStr ++ ":" ++ d.toStr
  | none => "nosort"

/-- The availability discriminator character of the key. -/
def availStr (b : Bool) : String := if b then "1" else "0"

/-- The normalized tuple that `cacheKey` renders: criteria trimmed and
lower-cased, branches normalized (trim, upper-case) and sorted, the remaining
fields verbatim. -/
structure NormQuery where
  criteria : String
  searchBy : SearchBy
  branches : List String
  onlyAvailable : Bool
  page : Int
  size : Int
  sort : Option (SortableField × SortDir)
  deriving Repr, DecidableEq

def normQuery (q : InventorySearchQuery) : NormQuery :=
  ⟨toLowerStr (trimStr q.criteria), q.searchBy,
    List.insertionSort strLeRel (q.branches.map (fun b => toUpperStr (trimStr b))),
    q.onlyAvailable, q.page, q.size, q.sort⟩

/-- Rendering of the normalized components, joined with `::` (branches joined
with `|`, availability as `0`/`1`, page/size with `p`/`s` prefixes; JS
`String(n)` on integers is decimal rendering, i.e. `Int.repr`). -/
def renderNorm (n : NormQuery) : String :=
  joinSep "::" [n.criteria, n.searchBy.toStr, joinSep "|" n.branches,
    availStr n.onlyAvailable,
    "p" ++ Int.repr n.page, "s" ++ Int.repr n.size, sortKeyStr n.sort]

/-- `cacheKey` (inventory-search-api.service.ts, lines 177-192): normalize each
component exactly as the source does, then join with `::`. -/
def cacheKey (q : InventorySearchQuery) : String := renderNorm (normQuery q)

/-- The HTTP translation of a client query (`search`, lines 58-71, composed
with the controller's parameter mapping in `InventoryController.Search`):
`branches` joined with commas and sent only when non-empty, `sort` sent as
`field:direction` only when present. -/
def toSearchRequest (q : InventorySearchQuery) : InventorySearchRequest where
  Criteria := some (trimStr q.criteria)
  By := some q.searchBy.toStr
  Branches := if q.branches.isEmpty then none else some (joinSep "," q.branches)
  OnlyAvailable := q.onlyAvailable
  Page := q.page
  Size := q.size
  SortParam := match q.sort with
    | some (f, d) => some (f.toStr ++ ":" ++ d.toStr)
    | none => none

/-! ## Orchestrator (index-page.component.ts, `ngOnInit`, lines 93-137)

The reactive pipeline `merge(search$, sort$, page$) |> debounceTime |> map
buildQuery |> tap(loading) |> switchMap(api.search) |> shareReplay` with the
`items$`/`total$` subscriptions is modelled as an explicit event-step machine:

* `trigger`: one of the three merged triggers fires (a pending debounce window
  is opened/restarted);
* `debounceElapse`: the debounce window ends with no further trigger; the query
  is built (assumed valid) and emitted: the `tap` clears the error and asserts
  loading, and `switchMap` unsubscribes any outstanding inner observable
  (firing its `finalize`, which clears loading) and issues a new request with
  the next generation number;
* `response g env`: the HTTP response for request generation `g` arrives.
  `switchMap` propagates it only if `g` is still the current generation
  (an unsubscribed inner's events never propagate); propagation runs the inner
  `tap` (error message), the `items$`/`total$` subscribers, and `finalize`
  (loading cleared on completion). -/

structure ApiEnvelope where
  isFailed : Bool
  data : Option (List InventoryItem × Int)
  message : Option String
  deriving Repr, DecidableEq

structure OrchState where
  gen : Nat
  active : Bool
  pendingDebounce : Bool
  loading : Bool
  items : List InventoryItem
  total : Int
  errorMessage : Option String
  deriving Repr, DecidableEq

inductive OrchEvent where
  | trigger
  | debounceElapse
  | response (gen : Nat) (env : ApiEnvelope)
  deriving Repr, DecidableEq

/-- Initial published state: `loading$ = false`, `items$ = []`,
`total$ = 0` (`startWith(0)`), `errorMessage = null`. -/
def orchInit : OrchState := ⟨0, false, false, false, [], 0, none⟩

/-- `res.message || 'Search failed'`. -/
def failMessage (env : ApiEnvelope) : String :=
  match env.message with
  | some m => if m == "" then "Search failed" else m
  | none => "Search failed"

def orchStep (s : OrchState) : OrchEvent → OrchState
  | .trigger => { s with pendingDebounce := true }
  | .debounceElapse =>
      if s.pendingDebounce then
        { s with pendingDebounce := false,
                 errorMessage := none,
                 loading := if s.active then false else true,
                 active := true,
                 gen := s.gen + 1 }
      else s
  | .response g env =>
      if g == s.gen && s.active then
        { s with
          errorMessage := if env.isFailed then some (failMessage env) else none,
          items := if env.isFailed || env.data.isNone then [] else (env.data.getD ([], 0)).1,
          total := if env.isFailed || env.data.isNone then 0 else (env.data.getD ([], 0)).2,
          loading := false,
          active := false }
      else s

def orchRun (s : OrchState) (events : List OrchEvent) : OrchState :=
  events.foldl orchStep s

/-! ## Specification-side helpers for the cache-key analysis -/

/-- Decimal digits of a natural number, most significant first (the reference
rendering that `Nat.repr`'s fuelled `toDigitsCore` implements). -/
def natDigits (n : Nat) : List Char :=
  if n < 10 then [Nat.digitChar n]
  else natDigits (n / 10) ++ [Nat.digitChar (n % 10)]
  decreasing_by exact Nat.div_lt_self (by omega) (by omega)

/-- Numeric value of a decimal digit character. -/
def digitVal (c : Char) : Nat := c.toNat - 48

/-- Value of a most-significant-first digit string. -/
def digitsVal (l : List Char) : Nat := l.foldl (fun a c => 10 * a + digitVal c) 0

/-- The delimiter-freedom assumption the spec itself makes of key components
(§4.2: branch codes are joined with, and all parts are concatenated with, "a
delimiter guaranteed absent from any component"): the normalized criteria
contains no `:`, and every normalized branch code is non-empty and contains
neither `:` nor `|`. -/
def goodQuery (q : InventorySearchQuery) : Prop :=
  (':' ∉ (toLowerStr (trimStr q.criteria)).data)
  ∧ ∀ b ∈ q.branches, toUpperStr (trimStr b) ≠ ""
      ∧ ':' ∉ (toUpperStr (trimStr b)).data ∧ '|' ∉ (toUpperStr (trimStr b)).data

instance (q : InventorySearchQuery) : Decidable (goodQuery q) := by
  unfold goodQuery; infer_instance

/-- Delimiter-freedom of an already-normalized tuple. -/
def goodNorm (n : NormQuery) : Prop :=
  (':' ∉ n.criteria.data)
  ∧ ∀ b ∈ n.branches, b ≠ "" ∧ ':' ∉ b.data ∧ '|' ∉ b.data

/-! ## General lemmas -/

theorem searchFiltered_eq_filter (all : List InventoryItem) (request : InventorySearchRequest) :
    searchFiltered all request = all.filter (matchesQuery request) := by
  unfold searchFiltered matchesQuery
  by_cases h1 : trimStr (request.Criteria.getD "") = "" <;>
  by_cases h2 : isNullOrWhiteSpace request.Branches = true <;>
  by_cases h3 : request.OnlyAvailable = true <;>
  simp [h1, h2, h3, List.filter_filter, Bool.and_comm, Bool.and_assoc, Bool.and_left_comm]

theorem effPage_nonneg (request : InventorySearchRequest) : 0 ≤ effPage request := by
  unfold effPage
  split <;> omega

theorem effSize_pos (request : InventorySearchRequest) : 0 < effSize request := by
  unfold effSize
  split <;> omega

/-- A value already inside the signed 32-bit range is unchanged by wrapping. -/
theorem int32Wrap_eq_self {n : Int} (h0 : 0 ≤ n) (h1 : n ≤ intMaxValue) :
    int32Wrap n = n := by
  unfold int32Wrap
  rw [Int.emod_eq_of_lt (by omega) (by unfold intMaxValue at h1; omega)]
  omega

/-- `C1` counterexample: the skip offset is computed in unchecked 32-bit
arithmetic, so at `page = 134217728, size = 20` the product `2684354560`
wraps to `-1610612736` and `Skip` of a negative count skips nothing: the
mathematically out-of-range page comes back as a *full* page, refuting both
the `min(size, max(0, total - page*size))` item count and the
empty-out-of-range-page conjuncts of the claim. -/
theorem search_overflow_cex :
    (searchInventory [⟨some "P", none, none, some "A", 1, none, none, none⟩]
        ⟨some "p", none, none, false, 134217728, 20, none⟩).Total = 1
    ∧ (searchInventory [⟨some "P", none, none, some "A", 1, none, none, none⟩]
        ⟨some "p", none, none, false, 134217728, 20, none⟩).Total
      ≤ (effPage ⟨some "p", none, none, false, 134217728, 20, none⟩
          * effSize ⟨some "p", none, none, false, 134217728, 20, none⟩).toNat
    ∧ (searchInventory [⟨some "P", none, none, some "A", 1, none, none, none⟩]
        ⟨some "p", none, none, false, 134217728, 20, none⟩).Items ≠ []
    ∧ (searchInventory [⟨some "P", none, none, some "A", 1, none, none, none⟩]
        ⟨some "p", none, none, false, 134217728, 20, none⟩).Items.length
      ≠ min (effSize ⟨some "p", none, none, false, 134217728, 20, none⟩).toNat
          ((searchInventory [⟨some "P", none, none, some "A", 1, none, none, none⟩]
              ⟨some "p", none, none, false, 134217728, 20, none⟩).Total
            - (effPage ⟨some "p", none, none, false, 134217728, 20, none⟩
                * effSize ⟨some "p", none, none, false, 134217728, 20, none⟩).toNat) :=
  ⟨by decide, by decide, by decide, by decide⟩

/-- `C1` as amended: for every record set and every query whose clamped
`page * size` product stays within the signed 32-bit range (no unchecked
overflow), `search` returns `total` equal to the number of records satisfying
the conjunction of the criteria/branch/availability filters (independent of
page and size); the returned page is the slice `[page*size, page*size + size)`
of the filtered-and-sorted sequence, so the returned item count is
`min(size, max(0, total - page*size))` (`Nat` subtraction is truncated), and
an out-of-range page yields an empty page with the correct total and no
error. -/
theorem search_pagination_correct (all : List InventoryItem)
    (request : InventorySearchRequest)
    (hov : effPage request * effSize request ≤ intMaxValue) :
    (searchInventory all request).Total = (all.filter (matchesQuery request)).length
    ∧ (∀ p s : Int,
        (searchInventory all { request with Page := p, Size := s }).Total
          = (searchInventory all request).Total)
    ∧ (searchInventory all request).Items
        = ((searchSorted all request).drop
            (effPage request * effSize request).toNat).take (effSize request).toNat
    ∧ (searchInventory all request).Items.length
        = min (effSize request).toNat
            ((searchInventory all request).Total - (effPage request * effSize request).toNat)
    ∧ ((searchInventory all request).Total ≤ (effPage request * effSize request).toNat →
        (searchInventory all request).Items = []) := by
  have hwrap : int32Wrap (effPage request * effSize request)
      = effPage request * effSize request :=
    int32Wrap_eq_self
      (mul_nonneg (effPage_nonneg request) (le_of_lt (effSize_pos request))) hov
  refine ⟨?_, ?_, ?_, ?_, ?_⟩
  · show (searchSorted all request).length = _
    exact ((List.perm_insertionSort _ _).length_eq).trans (by rw [searchFiltered_eq_filter])
  · intro p s
    rfl
  · show (((searchSorted all request).drop
        (int32Wrap (effPage request * effSize request)).toNat).take _) = _
    rw [hwrap]
  · show (((searchSorted all request).drop
        (int32Wrap (effPage request * effSize request)).toNat).take _).length = _
    rw [hwrap]
    simp [List.length_take, List.length_drop, searchInventory, hwrap]
  · intro h
    show (((searchSorted all request).drop
        (int32Wrap (effPage request * effSize request)).toNat).take _) = []
    rw [hwrap]
    have hd : (searchSorted all request).drop (effPage request * effSize request).toNat = [] :=
      List.drop_eq_nil_of_le h
    simp [hd]

/-- Witness for `search_pagination_correct`: a non-overflowing out-of-range
page yields the correct total and an empty page. -/
theorem search_pagination_correct_witness :
    (searchInventory [⟨some "P", none, none, some "A", 1, none, none, none⟩]
        ⟨some "p", none, none, false, 50, 20, none⟩).Total = 1
    ∧ (searchInventory [⟨some "P", none, none, some "A", 1, none, none, none⟩]
        ⟨some "p", none, none, false, 50, 20, none⟩).Items = [] :=
  ⟨by decide,
    (search_pagination_correct
      [⟨some "P", none, none, some "A", 1, none, none, none⟩]
      ⟨some "p", none, none, false, 50, 20, none⟩ (by decide)).2.2.2.2 (by decide)⟩

theorem mem_dedupFirst (a : String) :
    ∀ (l seen : List String), a ∈ dedupFirst seen l ↔ (a ∈ l ∧ a ∉ seen) := by
  intro l
  induction l with
  | nil => simp [dedupFirst]
  | cons k ks ih =>
    intro seen
    unfold dedupFirst
    by_cases hk : k ∈ seen
    · rw [if_pos hk, ih]
      constructor
      · rintro ⟨h1, h2⟩; exact ⟨.tail _ h1, h2⟩
      · rintro ⟨h1, h2⟩
        cases h1 with
        | head => exact absurd hk h2
        | tail _ h => exact ⟨h, h2⟩
    · rw [if_neg hk]
      simp only [List.mem_cons, ih, List.mem_cons, not_or]
      constructor
      · rintro (rfl | ⟨h1, h2, h3⟩)
        · exact ⟨Or.inl rfl, hk⟩
        · exact ⟨Or.inr h1, h3⟩
      · rintro ⟨rfl | h1, h2⟩
        · exact Or.inl rfl
        · by_cases hak : a = k
          · exact Or.inl hak
          · exact Or.inr ⟨h1, hak, h2⟩

theorem nodup_dedupFirst : ∀ (l seen : List String), (dedupFirst seen l).Nodup := by
  intro l
  induction l with
  | nil => intro seen; simp [dedupFirst]
  | cons k ks ih =>
    intro seen
    unfold dedupFirst
    by_cases hk : k ∈ seen
    · rw [if_pos hk]; exact ih seen
    · rw [if_neg hk]
      refine List.nodup_cons.mpr ⟨?_, ih _⟩
      intro hmem
      exact ((mem_dedupFirst k ks (k :: seen)).mp hmem).2 (List.mem_cons_self _ _)

theorem sum_map_add_split {α : Type} (l : List α) (f g : α → Int) :
    (l.map (fun a => f a + g a)).sum = (l.map f).sum + (l.map g).sum := by
  induction l with
  | nil => simp
  | cons x xs ih => simp [ih]; ring

theorem sum_ite_eq_of_mem (keys : List String) (hnd : keys.Nodup) (k0 : String)
    (hk : k0 ∈ keys) (v : Int) :
    (keys.map (fun k => if k0 == k then v else 0)).sum = v := by
  induction keys with
  | nil => cases hk
  | cons k ks ih =>
    rw [List.nodup_cons] at hnd
    by_cases h : k0 = k
    · subst h
      have hz : (ks.map (fun k => if k0 = k then v else 0)).sum = 0 := by
        apply List.sum_eq_zero
        intro x hx
        obtain ⟨k', hk', rfl⟩ := List.mem_map.mp hx
        have hne : ¬ k0 = k' := by
          rintro rfl
          exact hnd.1 hk'
        simp [hne]
      simp [hz]
    · have hk' : k0 ∈ ks := by
        cases hk with
        | head => exact absurd rfl h
        | tail _ hh => exact hh
      have : ¬ (k0 == k) = true := by simpa using h
      simp only [List.map_cons, List.sum_cons, if_neg this, zero_add]
      exact ih hnd.2 hk'

theorem sum_filter_partition (f : InventoryItem → String) (g : InventoryItem → Int) :
    ∀ (l : List InventoryItem) (keys : List String), keys.Nodup → (∀ x ∈ l, f x ∈ keys) →
    (keys.map (fun k => ((l.filter (fun x => f x == k)).map g).sum)).sum = (l.map g).sum := by
  intro l
  induction l with
  | nil =>
    intro keys _ _
    apply List.sum_eq_zero
    intro x hx
    obtain ⟨k, _, rfl⟩ := List.mem_map.mp hx
    simp
  | cons x xs ih =>
    intro keys hnd hall
    have hstep : keys.map (fun k => (((x :: xs).filter (fun y => f y == k)).map g).sum)
        = keys.map (fun k =>
            (if f x == k then g x else 0) + ((xs.filter (fun y => f y == k)).map g).sum) := by
      apply List.map_congr_left
      intro k _
      by_cases h : (f x == k) = true <;> simp [List.filter_cons, h]
    rw [hstep, sum_map_add_split, sum_ite_eq_of_mem keys hnd (f x) (hall x (.head _)) (g x),
      ih keys hnd (fun y hy => hall y (.tail _ hy))]
    simp

/-- The grouped per-branch sums add up to the sum over all matched records:
the branch keys are distinct and cover every record, so the filters partition. -/
theorem groupBranches_sum (ms : List InventoryItem) :
    ((groupBranches ms).map (·.Qty)).sum = (ms.map (·.AvailableQty)).sum := by
  unfold groupBranches
  rw [List.map_map]
  exact sum_filter_partition (fun i => toUpperStr (i.Branch.getD "")) (·.AvailableQty) ms _
    (nodup_dedupFirst _ _)
    (fun x hx => (mem_dedupFirst _ _ _).mpr ⟨List.mem_map_of_mem _ hx, by simp⟩)

/-- `C2`: for every non-blank part identifier with at least one matching
record, `peakAvailability` returns `totalAvailable` equal to the sum of the
per-branch `qty` values, which equals the sum of `AvailableQty` over all
matched records (no drift between the total and the per-branch breakdown). -/
theorem peak_total_no_drift (records : List InventoryItem) (p : String)
    (hb : isNullOrWhiteSpace (some p) = false)
    (hm : findByPartNumber records p ≠ []) :
    ∃ r, getPeakAvailability records p = .ok r
      ∧ r.TotalAvailable = (r.Branches.map (·.Qty)).sum
      ∧ r.TotalAvailable = ((findByPartNumber records p).map (·.AvailableQty)).sum := by
  have hne : (findByPartNumber records p).isEmpty = false := by
    simpa [List.isEmpty_iff] using hm
  have hget : getPeakAvailability records p = .ok
      ⟨((findByPartNumber records p).head?.getD default).PartNumber,
        ((List.insertionSort branchQtyGe (groupBranches (findByPartNumber records p))).map
          (·.Qty)).sum,
        List.insertionSort branchQtyGe (groupBranches (findByPartNumber records p))⟩ := by
    unfold getPeakAvailability
    simp [hb, hne]
  refine ⟨_, hget, rfl, ?_⟩
  calc ((List.insertionSort branchQtyGe (groupBranches (findByPartNumber records p))).map
        (·.Qty)).sum
      = ((groupBranches (findByPartNumber records p)).map (·.Qty)).sum :=
        List.Perm.sum_eq (List.Perm.map _ (List.perm_insertionSort _ _))
    _ = _ := groupBranches_sum _

/-- Witness for `peak_total_no_drift` at a concrete two-record input. -/
theorem peak_total_no_drift_witness :
    isNullOrWhiteSpace (some "P") = false
    ∧ findByPartNumber [⟨some "P", none, none, some "ZZZ", 5, none, none, none⟩,
        ⟨some "P", none, none, some "AAA", 7, none, none, none⟩] "P" ≠ []
    ∧ ∃ r, getPeakAvailability [⟨some "P", none, none, some "ZZZ", 5, none, none, none⟩,
        ⟨some "P", none, none, some "AAA", 7, none, none, none⟩] "P" = .ok r
      ∧ r.TotalAvailable = (r.Branches.map (·.Qty)).sum
      ∧ r.TotalAvailable = ((findByPartNumber
          [⟨some "P", none, none, some "ZZZ", 5, none, none, none⟩,
           ⟨some "P", none, none, some "AAA", 7, none, none, none⟩] "P").map
            (·.AvailableQty)).sum :=
  ⟨by decide, by decide, peak_total_no_drift _ _ (by decide) (by decide)⟩

instance : IsTotal BranchAvailability branchQtyGe := ⟨fun a b => le_total b.Qty a.Qty⟩

instance : IsTrans BranchAvailability branchQtyGe := ⟨fun _ _ _ h1 h2 => le_trans h2 h1⟩

/-- The value of `getPeakAvailability` in the non-blank, non-empty case. -/
theorem getPeak_eq_ok (records : List InventoryItem) (p : String)
    (hb : isNullOrWhiteSpace (some p) = false)
    (hne : (findByPartNumber records p).isEmpty = false) :
    getPeakAvailability records p = .ok
      ⟨((findByPartNumber records p).head?.getD default).PartNumber,
        ((List.insertionSort branchQtyGe (groupBranches (findByPartNumber records p))).map
          (·.Qty)).sum,
        List.insertionSort branchQtyGe (groupBranches (findByPartNumber records p))⟩ := by
  unfold getPeakAvailability
  simp [hb, hne]

/-- `C9`: `peakAvailability` fails with `InvalidArgument` iff the part
identifier is blank; a non-blank identifier matching no record yields the
zero-valued result (total 0, empty branch list, identifier echoed trimmed)
rather than an error. -/
theorem peak_blank_iff_error (records : List InventoryItem) (p : String) :
    (getPeakAvailability records p = .error "partNumber is required"
      ↔ isNullOrWhiteSpace (some p) = true)
    ∧ (isNullOrWhiteSpace (some p) = false → findByPartNumber records p = [] →
        getPeakAvailability records p = .ok ⟨some (trimStr p), 0, []⟩) := by
  refine ⟨⟨?_, ?_⟩, ?_⟩
  · intro herr
    by_contra hb
    have hb' : isNullOrWhiteSpace (some p) = false := by
      cases h : isNullOrWhiteSpace (some p) <;> simp_all
    unfold getPeakAvailability at herr
    rw [hb'] at herr
    simp only [Bool.false_eq_true, if_false] at herr
    split at herr <;> simp_all
  · intro hb
    simp [getPeakAvailability, hb]
  · intro hb hempty
    have hne : (findByPartNumber records p).isEmpty = true := by simp [hempty]
    simp [getPeakAvailability, hb, hne]

/-- Witness for `peak_blank_iff_error`: a blank identifier errors, and a
non-blank identifier with no match returns the zero-valued result. -/
theorem peak_blank_iff_error_witness :
    getPeakAvailability [] " " = .error "partNumber is required"
    ∧ getPeakAvailability [⟨some "P", none, none, some "A", 3, none, none, none⟩] "nope"
        = .ok ⟨some "nope", 0, []⟩ :=
  ⟨(peak_blank_iff_error [] " ").1.mpr (by decide),
    (peak_blank_iff_error _ "nope").2 (by decide) (by decide)⟩

/-- `C8` counterexample: two matched records with equal quantities in branches
`ZZZ` then `AAA` produce the branch list `[ZZZ, AAA]` — the tie is *not*
broken by branch code ascending (the claimed order would put `AAA` first);
ties keep the grouping (first-occurrence) order. -/
theorem peak_tiebreak_cex :
    getPeakAvailability [⟨some "P", none, none, some "ZZZ", 5, none, none, none⟩,
        ⟨some "P", none, none, some "AAA", 5, none, none, none⟩] "P"
      = .ok ⟨some "P", 10, [⟨"ZZZ", 5⟩, ⟨"AAA", 5⟩]⟩
    ∧ ¬ (([⟨"ZZZ", 5⟩, ⟨"AAA", 5⟩] : List BranchAvailability).Pairwise
        (fun a b => a.Qty > b.Qty ∨ (a.Qty = b.Qty ∧ strLe a.Branch b.Branch = true))) :=
  ⟨by rfl, by decide⟩

/-- `C8` as amended: the branches list is sorted descending by summed quantity
(every earlier entry has quantity ≥ every later entry) and is a permutation of
the per-branch aggregates; equal-quantity ties keep the stable sort's grouping
order rather than branch-code ascending order. -/
theorem peak_branches_sorted_desc (records : List InventoryItem) (p : String)
    (hb : isNullOrWhiteSpace (some p) = false)
    (hm : findByPartNumber records p ≠ []) :
    ∃ r, getPeakAvailability records p = .ok r
      ∧ r.Branches.Pairwise (fun a b => b.Qty ≤ a.Qty)
      ∧ r.Branches.Perm (groupBranches (findByPartNumber records p)) := by
  have hne : (findByPartNumber records p).isEmpty = false := by
    simpa [List.isEmpty_iff] using hm
  refine ⟨_, getPeak_eq_ok records p hb hne, ?_, List.perm_insertionSort _ _⟩
  exact List.sorted_insertionSort branchQtyGe (groupBranches (findByPartNumber records p))

/-- Witness for `peak_branches_sorted_desc` at a concrete input. -/
theorem peak_branches_sorted_desc_witness :
    ∃ r, getPeakAvailability [⟨some "Q", none, none, some "SEA", 2, none, none, none⟩,
        ⟨some "Q", none, none, some "PDX", 9, none, none, none⟩] "Q" = .ok r
      ∧ r.Branches.Pairwise (fun a b => b.Qty ≤ a.Qty)
      ∧ r.Branches.Perm (groupBranches (findByPartNumber
          [⟨some "Q", none, none, some "SEA", 2, none, none, none⟩,
           ⟨some "Q", none, none, some "PDX", 9, none, none, none⟩] "Q")) :=
  peak_branches_sorted_desc _ _ (by decide) (by decide)

/-- `C10` counterexample: the service trims `By` before dispatching, so the
request value `" Description"` — a string other than `"Description"` and
`"SupplierSKU"` — matches on the description field, *not* the part-number
field: on a record whose description contains the criteria but whose part
number does not, it behaves differently from `by = "PartNumber"`. -/
theorem search_by_trim_cex :
    (" Description" : String) ≠ "Description"
    ∧ (" Description" : String) ≠ "SupplierSKU"
    ∧ searchInventory [⟨some "X", none, some "ABC", none, 1, none, none, none⟩]
        ⟨some "ABC", some " Description", none, false, 0, 20, none⟩
      ≠ searchInventory [⟨some "X", none, some "ABC", none, 1, none, none, none⟩]
        ⟨some "ABC", some "PartNumber", none, false, 0, 20, none⟩ :=
  ⟨by decide, by decide, by decide⟩

/-- `C10` as amended: for every request whose *trimmed* `by` value is neither
`"Description"` nor `"SupplierSKU"` (including unrecognized values such as
`"Branch"` or arbitrary text), search behaves identically to
`by = "PartNumber"`. -/
theorem search_by_fallback (all : List InventoryItem) (request : InventorySearchRequest)
    (h1 : trimStr (request.By.getD "PartNumber") ≠ "Description")
    (h2 : trimStr (request.By.getD "PartNumber") ≠ "SupplierSKU") :
    searchInventory all request
      = searchInventory all { request with By := some "PartNumber" } := by
  have hbyf : byMatch (trimStr (request.By.getD "PartNumber")) = byMatch "PartNumber" := by
    funext critU i
    unfold byMatch
    split
    · next heq => exact absurd heq h1
    · next heq => exact absurd heq h2
    · rfl
  have hfil : searchFiltered all request
      = searchFiltered all { request with By := some "PartNumber" } := by
    simp only [searchFiltered]
    rw [hbyf]
    rfl
  unfold searchInventory searchSorted
  rw [hfil]
  rfl

/-- Witness for `search_by_fallback`: `by = "Branch"` behaves as part-number search. -/
theorem search_by_fallback_witness :
    searchInventory [⟨some "X", none, some "ABC", none, 1, none, none, none⟩]
        ⟨some "ABC", some "Branch", none, false, 0, 20, none⟩
      = searchInventory [⟨some "X", none, some "ABC", none, 1, none, none, none⟩]
        ⟨some "ABC", some "PartNumber", none, false, 0, 20, none⟩ :=
  search_by_fallback _ _ (by decide) (by decide)

instance : IsTotal CacheEntry entryExpiryLe := ⟨fun a b => Nat.le_total a.expiry b.expiry⟩

instance : IsTrans CacheEntry entryExpiryLe := ⟨fun _ _ _ => Nat.le_trans⟩

/-- `remember` never leaves more than the capacity in the cache: the trailing
shift-while-over-capacity loop bounds the length unconditionally. -/
theorem remember_length_le (now : Nat) (cache : List CacheEntry) (key : String) :
    (remember now cache key).length ≤ CACHE_MAX_ENTRIES := by
  simp only [remember]
  rw [List.length_drop]
  omega

/-- `C4`: each cache holds at most 5 entries after every get-or-create, and
when a 6th distinct key is inserted into a full cache of unexpired entries,
exactly one entry — one with the earliest expiry — is evicted, leaving 5. -/
theorem cache_capacity_eviction (now : Nat) (cache : List CacheEntry) (key : String) :
    (cache.length ≤ CACHE_MAX_ENTRIES →
      (cacheGetOrCreate now cache key).cache.length ≤ CACHE_MAX_ENTRIES)
    ∧ (cache.length = CACHE_MAX_ENTRIES → (∀ e ∈ cache, now < e.expiry) →
        (∀ e ∈ cache, e.key ≠ key) →
        (cacheGetOrCreate now cache key).upstream = true
        ∧ (cacheGetOrCreate now cache key).cache.length = CACHE_MAX_ENTRIES
        ∧ ∃ ev ∈ cache, (∀ e ∈ cache, ev.expiry ≤ e.expiry)
            ∧ (cacheGetOrCreate now cache key).cache.Perm
                (⟨key, now + CACHE_TTL_MS⟩ :: cache.erase ev)) := by
  constructor
  · intro hle
    simp only [cacheGetOrCreate]
    split
    · exact (List.length_filter_le _ _).trans hle
    · exact remember_length_le _ _ _
  · intro hlen hunexp hkeys
    have hfe : cache.filter (fun e => decide (now < e.expiry)) = cache :=
      List.filter_eq_self.mpr (fun e he => by simpa using hunexp e he)
    have hfn : cache.find? (fun e => e.key == key) = none :=
      List.find?_eq_none.mpr (fun e he => by simpa using hkeys e he)
    have hstep : cacheGetOrCreate now cache key = ⟨remember now cache key, true⟩ := by
      simp only [cacheGetOrCreate]
      rw [hfe, hfn]
    obtain ⟨ev, rest, hs⟩ : ∃ ev rest, List.insertionSort entryExpiryLe cache = ev :: rest := by
      cases hc : List.insertionSort entryExpiryLe cache with
      | nil =>
        exfalso
        have := (List.perm_insertionSort entryExpiryLe cache).length_eq
        rw [hc, hlen] at this
        simp [CACHE_MAX_ENTRIES] at this
      | cons ev rest => exact ⟨ev, rest, rfl⟩
    have hperm : cache.Perm (ev :: rest) := by
      have := (List.perm_insertionSort entryExpiryLe cache).symm
      rwa [hs] at this
    have hrest_len : rest.length = 4 := by
      have := hperm.length_eq
      rw [hlen] at this
      simp [CACHE_MAX_ENTRIES] at this
      omega
    have hsorted : List.Sorted entryExpiryLe (ev :: rest) := by
      have := List.sorted_insertionSort entryExpiryLe cache
      rwa [hs] at this
    have hmin : ∀ e ∈ cache, ev.expiry ≤ e.expiry := by
      intro e he
      have he' : e ∈ ev :: rest := hperm.subset he
      cases he' with
      | head => exact Nat.le_refl _
      | tail _ hmem => exact (List.sorted_cons.mp hsorted).1 e hmem
    have hev_mem : ev ∈ cache := hperm.symm.subset (List.mem_cons_self _ _)
    have hrem : remember now cache key = rest ++ [⟨key, now + CACHE_TTL_MS⟩] := by
      simp only [remember]
      rw [hfe, hs, hlen]
      simp [CACHE_MAX_ENTRIES, hrest_len]
    refine ⟨by rw [hstep], by rw [hstep]; simp [hrem, hrest_len, CACHE_MAX_ENTRIES], ?_⟩
    refine ⟨ev, hev_mem, hmin, ?_⟩
    rw [hstep]
    show (remember now cache key).Perm _
    rw [hrem]
    have hp2 : rest.Perm (cache.erase ev) := by
      have h1 : (cache.erase ev).Perm ((ev :: rest).erase ev) := hperm.erase ev
      rw [List.erase_cons_head] at h1
      exact h1.symm
    exact (List.perm_append_singleton _ _).trans (hp2.cons _)

/-- Witness for `cache_capacity_eviction`: inserting a 6th distinct key into a
full cache evicts one earliest-expiring entry and leaves 5. -/
theorem cache_capacity_eviction_witness :
    (cacheGetOrCreate 1 [⟨"k1", 10⟩, ⟨"k2", 20⟩, ⟨"k3", 5⟩, ⟨"k4", 30⟩, ⟨"k5", 25⟩]
        "k6").cache.length ≤ CACHE_MAX_ENTRIES
    ∧ (cacheGetOrCreate 1 [⟨"k1", 10⟩, ⟨"k2", 20⟩, ⟨"k3", 5⟩, ⟨"k4", 30⟩, ⟨"k5", 25⟩]
        "k6").upstream = true
    ∧ (cacheGetOrCreate 1 [⟨"k1", 10⟩, ⟨"k2", 20⟩, ⟨"k3", 5⟩, ⟨"k4", 30⟩, ⟨"k5", 25⟩]
        "k6").cache.length = CACHE_MAX_ENTRIES
    ∧ ∃ ev ∈ [(⟨"k1", 10⟩ : CacheEntry), ⟨"k2", 20⟩, ⟨"k3", 5⟩, ⟨"k4", 30⟩, ⟨"k5", 25⟩],
        (∀ e ∈ [(⟨"k1", 10⟩ : CacheEntry), ⟨"k2", 20⟩, ⟨"k3", 5⟩, ⟨"k4", 30⟩, ⟨"k5", 25⟩],
          ev.expiry ≤ e.expiry)
        ∧ (cacheGetOrCreate 1 [⟨"k1", 10⟩, ⟨"k2", 20⟩, ⟨"k3", 5⟩, ⟨"k4", 30⟩, ⟨"k5", 25⟩]
            "k6").cache.Perm
            (⟨"k6", 1 + CACHE_TTL_MS⟩ ::
              [(⟨"k1", 10⟩ : CacheEntry), ⟨"k2", 20⟩, ⟨"k3", 5⟩, ⟨"k4", 30⟩, ⟨"k5", 25⟩].erase ev) := by
  have h := cache_capacity_eviction 1
    [⟨"k1", 10⟩, ⟨"k2", 20⟩, ⟨"k3", 5⟩, ⟨"k4", 30⟩, ⟨"k5", 25⟩] "k6"
  have h2 := h.2 (by decide) (by decide) (by decide)
  exact ⟨h.1 (by decide), h2.1, h2.2.1, h2.2.2⟩

/-- After the failure handler removed a key, the next get-or-create for that
key always misses and reaches upstream. -/
theorem getOrCreate_after_failure_miss (now : Nat) (c : List CacheEntry) (key : String) :
    (cacheGetOrCreate now (completeFailure c key) key).upstream = true := by
  simp only [cacheGetOrCreate]
  have hfn : ((completeFailure c key).filter (fun e => decide (now < e.expiry))).find?
      (fun e => e.key == key) = none := by
    apply List.find?_eq_none.mpr
    intro e he
    obtain ⟨hem, _⟩ := List.mem_filter.mp he
    obtain ⟨_, hne⟩ := List.mem_filter.mp hem
    simpa using hne
  rw [hfn]

/-- `C5`: a failed outcome removes the entry, so with an intervening failure
both consecutive get-or-create calls for the same key reach upstream (the
first call misses because no unexpired entry for the key exists). -/
theorem failed_result_not_cached (now1 now2 : Nat) (cache : List CacheEntry) (key : String)
    (hexp : ∀ e ∈ cache, e.key = key → e.expiry ≤ now1) :
    (cacheGetOrCreate now1 cache key).upstream = true
    ∧ (cacheGetOrCreate now2
        (completeFailure (cacheGetOrCreate now1 cache key).cache key) key).upstream = true := by
  constructor
  · simp only [cacheGetOrCreate]
    have hfn : (cache.filter (fun e => decide (now1 < e.expiry))).find?
        (fun e => e.key == key) = none := by
      apply List.find?_eq_none.mpr
      intro e he
      obtain ⟨hem, hlt⟩ := List.mem_filter.mp he
      have hlt' : now1 < e.expiry := of_decide_eq_true hlt
      simp only [beq_iff_eq]
      intro hk
      exact absurd (hexp e hem hk) (by omega)
    rw [hfn]
  · exact getOrCreate_after_failure_miss now2 _ key

/-- Witness for `failed_result_not_cached`: an expired old entry for the key,
then a miss, a failure, and a second miss. -/
theorem failed_result_not_cached_witness :
    (cacheGetOrCreate 5 [⟨"k", 1⟩] "k").upstream = true
    ∧ (cacheGetOrCreate 70000
        (completeFailure (cacheGetOrCreate 5 [⟨"k", 1⟩] "k").cache "k") "k").upstream = true :=
  failed_result_not_cached 5 70000 [⟨"k", 1⟩] "k" (by decide)

/-- A response for a request that is not the current active one (`switchMap`
has already unsubscribed it, or it already completed) changes nothing. -/
theorem orchStep_stale (s : OrchState) (g : Nat) (env : ApiEnvelope)
    (h : ¬ (g = s.gen ∧ s.active = true)) : orchStep s (.response g env) = s := by
  unfold orchStep
  have hc : (g == s.gen && s.active) = false := by
    cases hg : g == s.gen <;> cases ha : s.active <;> simp_all
  simp [hc]

/-- `C6` counterexample: a page-change trigger arrives while request 1 is
outstanding (trace `trigger, elapse, trigger`), yet request 1's result —
arriving before the new trigger's debounce window elapses — is still
published: the published items change from `[]` to the response's items.  The
outstanding request is only discarded once the superseding request has
actually been issued (debounce elapsed), not upon trigger arrival. -/
theorem orch_supersede_cex :
    (orchRun orchInit [.trigger, .debounceElapse, .trigger]).active = true
    ∧ (orchRun orchInit [.trigger, .debounceElapse, .trigger]).pendingDebounce = true
    ∧ (orchStep (orchRun orchInit [.trigger, .debounceElapse, .trigger])
        (.response 1 ⟨false, some ([⟨some "A", none, none, none, 1, none, none, none⟩], 1), none⟩)).items
      ≠ (orchRun orchInit [.trigger, .debounceElapse, .trigger]).items := by
  refine ⟨rfl, rfl, by decide⟩

/-- `C6` as amended: a response for any superseded request (one that is no
longer the current active generation) never updates the published state; in
particular, once a second request has been issued (its debounce elapsed), the
first request's result is discarded entirely and only the most recent
request's result is published. -/
theorem orch_last_request_wins :
    (∀ (s : OrchState) (g : Nat) (env : ApiEnvelope),
      ¬ (g = s.gen ∧ s.active = true) → orchStep s (.response g env) = s)
    ∧ ∀ (s0 : OrchState) (env1 env2 : ApiEnvelope),
        orchRun s0 [.trigger, .debounceElapse, .trigger, .debounceElapse,
          .response (s0.gen + 1) env1, .response (s0.gen + 2) env2]
        = orchRun s0 [.trigger, .debounceElapse, .trigger, .debounceElapse,
          .response (s0.gen + 2) env2] := by
  refine ⟨fun s g env h => orchStep_stale s g env h, ?_⟩
  intro s0 env1 env2
  have hgen : (orchRun s0 [.trigger, .debounceElapse, .trigger, .debounceElapse]).gen
      = s0.gen + 1 + 1 := rfl
  have hstale := orchStep_stale
    (orchRun s0 [.trigger, .debounceElapse, .trigger, .debounceElapse])
    (s0.gen + 1) env1 (by
      rintro ⟨h1, _⟩
      rw [hgen] at h1
      omega)
  show orchStep (orchStep (orchRun s0 [.trigger, .debounceElapse, .trigger, .debounceElapse])
      (.response (s0.gen + 1) env1)) (.response (s0.gen + 2) env2) = _
  rw [hstale]
  rfl

/-- Witness for `orch_last_request_wins` at concrete inputs. -/
theorem orch_last_request_wins_witness :
    orchStep ⟨5, true, false, true, [], 0, none⟩ (.response 3 ⟨false, some ([], 9), none⟩)
        = ⟨5, true, false, true, [], 0, none⟩
    ∧ orchRun orchInit [.trigger, .debounceElapse, .trigger, .debounceElapse,
        .response 1 ⟨false, some ([], 4), none⟩, .response 2 ⟨false, some ([], 8), none⟩]
      = orchRun orchInit [.trigger, .debounceElapse, .trigger, .debounceElapse,
        .response 2 ⟨false, some ([], 8), none⟩] :=
  ⟨orch_last_request_wins.1 _ 3 _ (by decide),
    orch_last_request_wins.2 orchInit ⟨false, some ([], 4), none⟩ ⟨false, some ([], 8), none⟩⟩

/-- `C7` counterexample: after a successful first request publishes one item
and total 7, a failing second request *clears* the published items to `[]` and
the total to `0` — they are not left at their prior values, and this is not
the first request. -/
theorem orch_failure_clears_cex :
    (orchRun orchInit [.trigger, .debounceElapse,
        .response 1 ⟨false, some ([⟨some "A", none, none, none, 1, none, none, none⟩], 7), none⟩]).items
      = [⟨some "A", none, none, none, 1, none, none, none⟩]
    ∧ (orchRun orchInit [.trigger, .debounceElapse,
        .response 1 ⟨false, some ([⟨some "A", none, none, none, 1, none, none, none⟩], 7), none⟩]).total
      = 7
    ∧ (orchRun orchInit [.trigger, .debounceElapse,
        .response 1 ⟨false, some ([⟨some "A", none, none, none, 1, none, none, none⟩], 7), none⟩,
        .trigger, .debounceElapse, .response 2 ⟨true, none, some "boom"⟩]).items = []
    ∧ (orchRun orchInit [.trigger, .debounceElapse,
        .response 1 ⟨false, some ([⟨some "A", none, none, none, 1, none, none, none⟩], 7), none⟩,
        .trigger, .debounceElapse, .response 2 ⟨true, none, some "boom"⟩]).total = 0 := by
  refine ⟨by decide, by decide, by decide, by decide⟩

/-- `C7` as amended: when the current request resolves as a failure, loading
is cleared and the error message is published, but the published items and
total are *cleared* (set to `[]` and `0`) rather than left at their prior
values — on every failure, not only the first request. -/
theorem orch_failure_publish (s : OrchState) (g : Nat) (env : ApiEnvelope)
    (hg : g = s.gen) (ha : s.active = true) (hf : env.isFailed = true) :
    (orchStep s (.response g env)).loading = false
    ∧ (orchStep s (.response g env)).errorMessage = some (failMessage env)
    ∧ (orchStep s (.response g env)).items = []
    ∧ (orchStep s (.response g env)).total = 0 := by
  subst hg
  unfold orchStep
  have hc : (s.gen == s.gen && s.active) = true := by simp [ha]
  simp [hc, hf, ha]

/-- Witness for `orch_failure_publish` at a concrete failing response. -/
theorem orch_failure_publish_witness :
    (orchStep ⟨2, true, false, true, [⟨some "A", none, none, none, 1, none, none, none⟩], 7, none⟩
        (.response 2 ⟨true, none, some "boom"⟩)).loading = false
    ∧ (orchStep ⟨2, true, false, true, [⟨some "A", none, none, none, 1, none, none, none⟩], 7, none⟩
        (.response 2 ⟨true, none, some "boom"⟩)).errorMessage
      = some (failMessage ⟨true, none, some "boom"⟩)
    ∧ (orchStep ⟨2, true, false, true, [⟨some "A", none, none, none, 1, none, none, none⟩], 7, none⟩
        (.response 2 ⟨true, none, some "boom"⟩)).items = []
    ∧ (orchStep ⟨2, true, false, true, [⟨some "A", none, none, none, 1, none, none, none⟩], 7, none⟩
        (.response 2 ⟨true, none, some "boom"⟩)).total = 0 :=
  orch_failure_publish _ 2 _ rfl rfl rfl

/-! ## Cache-key analysis: order properties of the branch sort -/

theorem str_ext {a b : String} (h : a.data = b.data) : a = b := by
  cases a
  cases b
  exact congrArg String.mk h

theorem charListLe_total (a : List Char) : ∀ b, charListLe a b = true ∨ charListLe b a = true := by
  induction a with
  | nil => intro b; left; rfl
  | cons x xs ih =>
    intro b
    cases b with
    | nil => right; rfl
    | cons y ys =>
      rcases lt_trichotomy x y with h | h | h
      · left; unfold charListLe; rw [if_pos h]
      · subst h
        unfold charListLe
        rw [if_neg (lt_irrefl x), if_neg (lt_irrefl x), if_neg (lt_irrefl x),
          if_neg (lt_irrefl x)]
        exact ih ys
      · right; unfold charListLe; rw [if_pos h]

theorem charListLe_trans (a : List Char) :
    ∀ b c, charListLe a b = true → charListLe b c = true → charListLe a c = true := by
  induction a with
  | nil => intro b c _ _; rfl
  | cons x xs ih =>
    intro b c h1 h2
    cases b with
    | nil => simp [charListLe] at h1
    | cons y ys =>
      cases c with
      | nil => simp [charListLe] at h2
      | cons z zs =>
        unfold charListLe at h1 h2 ⊢
        by_cases hxy : x < y
        · by_cases hyz : y < z
          · rw [if_pos (lt_trans hxy hyz)]
          · by_cases hzy : z < y
            · rw [if_neg hyz, if_pos hzy] at h2
              exact absurd h2 (by simp)
            · have hyzeq : y = z := le_antisymm (not_lt.mp hzy) (not_lt.mp hyz)
              rw [if_pos (hyzeq ▸ hxy)]
        · by_cases hyx : y < x
          · rw [if_neg hxy, if_pos hyx] at h1
            exact absurd h1 (by simp)
          · have hxyeq : x = y := le_antisymm (not_lt.mp hyx) (not_lt.mp hxy)
            subst hxyeq
            rw [if_neg hxy, if_neg hxy] at h1
            by_cases hxz : x < z
            · rw [if_pos hxz]
            · by_cases hzx : z < x
              · rw [if_neg hxz, if_pos hzx] at h2
                exact absurd h2 (by simp)
              · rw [if_neg hxz, if_neg hzx] at h2 ⊢
                exact ih ys zs h1 h2

theorem charListLe_antisymm (a : List Char) :
    ∀ b, charListLe a b = true → charListLe b a = true → a = b := by
  induction a with
  | nil =>
    intro b _ h2
    cases b with
    | nil => rfl
    | cons y ys => simp [charListLe] at h2
  | cons x xs ih =>
    intro b h1 h2
    cases b with
    | nil => simp [charListLe] at h1
    | cons y ys =>
      unfold charListLe at h1 h2
      by_cases hxy : x < y
      · rw [if_neg (lt_asymm hxy), if_pos hxy] at h2
        exact absurd h2 (by simp)
      · by_cases hyx : y < x
        · rw [if_neg hxy, if_pos hyx] at h1
          exact absurd h1 (by simp)
        · have hxyeq : x = y := le_antisymm (not_lt.mp hyx) (not_lt.mp hxy)
          subst hxyeq
          rw [if_neg hxy, if_neg hxy] at h1 h2
          rw [ih ys h1 h2]

instance : IsTotal String strLeRel :=
  ⟨fun a b => charListLe_total a.data b.data⟩

instance : IsTrans String strLeRel :=
  ⟨fun a b c h1 h2 => charListLe_trans a.data b.data c.data h1 h2⟩

instance : IsAntisymm String strLeRel :=
  ⟨fun a b h1 h2 => str_ext (charListLe_antisymm a.data b.data h1 h2)⟩

/-! ## Decimal rendering: `Nat.repr` / `Int.repr` facts -/

theorem toDigitsCore_eq_natDigits :
    ∀ (fuel n : Nat) (ds : List Char), n < 10 ^ (fuel + 1) →
      Nat.toDigitsCore 10 (fuel + 1) n ds = natDigits n ++ ds := by
  intro fuel
  induction fuel with
  | zero =>
    intro n ds h
    have h10 : n < 10 := by simpa using h
    have hdiv : n / 10 = 0 := Nat.div_eq_of_lt h10
    have hmod : n % 10 = n := Nat.mod_eq_of_lt h10
    simp only [Nat.toDigitsCore, hdiv, hmod, if_pos]
    rw [natDigits, if_pos h10]
    rfl
  | succ f ihf =>
    intro n ds h
    by_cases hz : n / 10 = 0
    · have h10 : n < 10 := by omega
      have hmod : n % 10 = n := Nat.mod_eq_of_lt h10
      simp only [Nat.toDigitsCore, hz, hmod, if_pos]
      rw [natDigits, if_pos h10]
      rfl
    · have h10 : ¬ n < 10 := by omega
      have hdiv : n / 10 < 10 ^ (f + 1) := by
        rw [Nat.div_lt_iff_lt_mul (by omega)]
        calc n < 10 ^ (f + 1 + 1) := h
          _ = 10 ^ (f + 1) * 10 := by ring
      have hstep : Nat.toDigitsCore 10 (f + 1 + 1) n ds
          = Nat.toDigitsCore 10 (f + 1) (n / 10) (Nat.digitChar (n % 10) :: ds) := by
        simp only [Nat.toDigitsCore, hz, if_neg]
        simp
      rw [hstep, ihf (n / 10) _ hdiv]
      conv_rhs => rw [natDigits]
      rw [if_neg h10]
      simp

theorem natRepr_data (n : Nat) : (Nat.repr n).data = natDigits n := by
  have hlt : n < 10 ^ (n + 1) := by
    calc n < 10 ^ n := Nat.lt_pow_self (by omega) n
      _ ≤ 10 ^ (n + 1) := Nat.pow_le_pow_right (by omega) (by omega)
  show ((Nat.toDigits 10 n).asString).data = natDigits n
  unfold Nat.toDigits
  rw [toDigitsCore_eq_natDigits n n [] hlt]
  simp [List.asString]

theorem natDigits_mem_digits :
    ∀ (n : Nat), ∀ c ∈ natDigits n, c ∈ ['0', '1', '2', '3', '4', '5', '6', '7', '8', '9'] := by
  have hdigit : ∀ m, m < 10 →
      Nat.digitChar m ∈ ['0', '1', '2', '3', '4', '5', '6', '7', '8', '9'] := by decide
  intro n
  induction n using Nat.strong_induction_on with
  | _ n ih =>
    intro c hc
    by_cases h : n < 10
    · rw [natDigits, if_pos h] at hc
      simp only [List.mem_singleton] at hc
      exact hc ▸ hdigit n h
    · rw [natDigits, if_neg h] at hc
      rcases List.mem_append.mp hc with h1 | h2
      · exact ih (n / 10) (Nat.div_lt_self (by omega) (by omega)) c h1
      · simp only [List.mem_singleton] at h2
        exact h2 ▸ hdigit (n % 10) (Nat.mod_lt n (by omega))

theorem digitsVal_natDigits : ∀ n, digitsVal (natDigits n) = n := by
  have hdigit : ∀ m, m < 10 → digitVal (Nat.digitChar m) = m := by decide
  intro n
  induction n using Nat.strong_induction_on with
  | _ n ih =>
    by_cases h : n < 10
    · rw [natDigits, if_pos h]
      show 10 * 0 + digitVal (Nat.digitChar n) = n
      rw [hdigit n h]
      omega
    · rw [natDigits, if_neg h]
      show List.foldl (fun a c => 10 * a + digitVal c) 0
        (natDigits (n / 10) ++ [Nat.digitChar (n % 10)]) = n
      rw [List.foldl_append]
      show 10 * digitsVal (natDigits (n / 10)) + digitVal (Nat.digitChar (n % 10)) = n
      rw [ih (n / 10) (Nat.div_lt_self (by omega) (by omega)),
        hdigit (n % 10) (Nat.mod_lt n (by omega))]
      omega

theorem natRepr_inj {a b : Nat} (h : Nat.repr a = Nat.repr b) : a = b := by
  have hd := congrArg String.data h
  rw [natRepr_data, natRepr_data] at hd
  have := congrArg digitsVal hd
  rwa [digitsVal_natDigits, digitsVal_natDigits] at this

theorem natRepr_no_colon (n : Nat) : ':' ∉ (Nat.repr n).data := by
  rw [natRepr_data]
  intro h
  exact absurd (natDigits_mem_digits n ':' h) (by decide)

theorem natRepr_no_dash (n : Nat) : '-' ∉ (Nat.repr n).data := by
  rw [natRepr_data]
  intro h
  exact absurd (natDigits_mem_digits n '-' h) (by decide)

theorem intRepr_no_colon (i : Int) : ':' ∉ (Int.repr i).data := by
  cases i with
  | ofNat m => simpa [Int.repr] using natRepr_no_colon m
  | negSucc m =>
    show ':' ∉ (("-" : String) ++ Nat.repr (m + 1)).data
    rw [String.data_append]
    intro hmem
    rcases List.mem_append.mp hmem with h1 | h2
    · simp at h1
    · exact natRepr_no_colon (m + 1) h2

theorem intRepr_inj {a b : Int} (h : Int.repr a = Int.repr b) : a = b := by
  cases a with
  | ofNat m =>
    cases b with
    | ofNat k =>
      simp only [Int.repr] at h
      rw [natRepr_inj h]
    | negSucc k =>
      exfalso
      simp only [Int.repr] at h
      have hd := congrArg String.data h
      rw [String.data_append] at hd
      apply natRepr_no_dash m
      rw [hd]
      exact List.mem_append.mpr (Or.inl (by decide))
  | negSucc m =>
    cases b with
    | ofNat k =>
      exfalso
      simp only [Int.repr] at h
      have hd := congrArg String.data h
      rw [String.data_append] at hd
      apply natRepr_no_dash k
      rw [← hd]
      exact List.mem_append.mpr (Or.inl (by decide))
    | negSucc k =>
      simp only [Int.repr] at h
      have hd := congrArg String.data h
      rw [String.data_append, String.data_append] at hd
      have h2 : (Nat.repr (m + 1)).data = (Nat.repr (k + 1)).data := by
        have : ("-" : String).data = ['-'] := by decide
        rw [this] at hd
        simpa using hd
      have hmk : m + 1 = k + 1 := natRepr_inj (str_ext h2)
      have : m = k := by omega
      rw [this]

/-! ## Cache-key parsing: peeling delimited components -/

/-- Joins of separator-free components parse uniquely: peeling one component. -/
theorem peelChar (sep : Char) :
    ∀ (a1 a2 s1 s2 : List Char), sep ∉ a1 → sep ∉ a2 →
      a1 ++ sep :: s1 = a2 ++ sep :: s2 → a1 = a2 ∧ s1 = s2 := by
  intro a1
  induction a1 with
  | nil =>
    intro a2 s1 s2 _ h2 heq
    cases a2 with
    | nil => simpa using heq
    | cons c a2' =>
      simp only [List.nil_append, List.cons_append, List.cons.injEq] at heq
      obtain ⟨rfl, -⟩ := heq
      exact absurd (List.mem_cons_self _ _) h2
  | cons x a1' ih =>
    intro a2 s1 s2 h1 h2 heq
    cases a2 with
    | nil =>
      simp only [List.nil_append, List.cons_append, List.cons.injEq] at heq
      obtain ⟨rfl, -⟩ := heq
      exact absurd (List.mem_cons_self _ _) h1
    | cons y a2' =>
      simp only [List.cons_append, List.cons.injEq] at heq
      obtain ⟨rfl, heq2⟩ := heq
      have h1' : sep ∉ a1' := fun hm => h1 (List.mem_cons_of_mem _ hm)
      have h2' : sep ∉ a2' := fun hm => h2 (List.mem_cons_of_mem _ hm)
      obtain ⟨ha, hs⟩ := ih a2' s1 s2 h1' h2' heq2
      exact ⟨congrArg _ ha, hs⟩

theorem str_data_eq_nil_iff (s : String) : s.data = [] ↔ s = "" := by
  constructor
  · intro h
    exact str_ext (by simpa using h)
  · intro h
    rw [h]

/-- A character missing from the separator and from every component is missing
from the join. -/
theorem joinSep_not_mem (sep : String) (c : Char) :
    ∀ (bs : List String), c ∉ sep.data → (∀ b ∈ bs, c ∉ b.data) →
      c ∉ (joinSep sep bs).data := by
  intro bs
  induction bs with
  | nil => intro _ _; simp [joinSep]
  | cons a rest ih =>
    intro hsep hall
    cases rest with
    | nil => simpa [joinSep] using hall a (List.mem_cons_self _ _)
    | cons b r2 =>
      show c ∉ (a ++ sep ++ joinSep sep (b :: r2)).data
      rw [String.data_append, String.data_append]
      intro hmem
      rcases List.mem_append.mp hmem with hmem1 | hmem2
      · rcases List.mem_append.mp hmem1 with hm | hm
        · exact hall a (List.mem_cons_self _ _) hm
        · exact hsep hm
      · exact ih hsep (fun x hx => hall x (List.mem_cons_of_mem _ hx)) hmem2

/-- Joining non-empty, bar-free components with `|` is injective. -/
theorem joinSep_bar_inj :
    ∀ (bs1 bs2 : List String),
      (∀ b ∈ bs1, b ≠ "" ∧ '|' ∉ b.data) → (∀ b ∈ bs2, b ≠ "" ∧ '|' ∉ b.data) →
      joinSep "|" bs1 = joinSep "|" bs2 → bs1 = bs2 := by
  have hjoin : ∀ (x y : String) (r : List String),
      (joinSep "|" (x :: y :: r)).data = x.data ++ '|' :: (joinSep "|" (y :: r)).data := by
    intro x y r
    rw [show joinSep "|" (x :: y :: r) = x ++ "|" ++ joinSep "|" (y :: r) from rfl,
      String.data_append, String.data_append,
      show ("|" : String).data = ['|'] from rfl]
    simp
  intro bs1
  induction bs1 with
  | nil =>
    intro bs2 _ h2 heq
    cases bs2 with
    | nil => rfl
    | cons b r =>
      exfalso
      cases r with
      | nil => exact (h2 b (List.mem_cons_self _ _)).1 heq.symm
      | cons b2 r2 =>
        have hd := congrArg String.data heq.symm
        rw [hjoin, show (joinSep "|" ([] : List String)).data = [] from rfl] at hd
        simpa using congrArg List.length hd
  | cons a r1 ih =>
    intro bs2 h1 h2 heq
    cases bs2 with
    | nil =>
      exfalso
      cases r1 with
      | nil => exact (h1 a (List.mem_cons_self _ _)).1 heq
      | cons a2 r1' =>
        have hd := congrArg String.data heq
        rw [hjoin, show (joinSep "|" ([] : List String)).data = [] from rfl] at hd
        simpa using congrArg List.length hd
    | cons b r2 =>
      cases r1 with
      | nil =>
        cases r2 with
        | nil => rw [show a = b from heq]
        | cons b2 r2' =>
          exfalso
          have hd := congrArg String.data heq
          rw [hjoin] at hd
          apply (h1 a (List.mem_cons_self _ _)).2
          rw [show (joinSep "|" [a]).data = a.data from rfl] at hd
          rw [hd]
          exact List.mem_append.mpr (Or.inr (List.mem_cons_self _ _))
      | cons a2 r1' =>
        cases r2 with
        | nil =>
          exfalso
          have hd := congrArg String.data heq
          rw [hjoin] at hd
          apply (h2 b (List.mem_cons_self _ _)).2
          rw [show (joinSep "|" [b]).data = b.data from rfl] at hd
          rw [← hd]
          exact List.mem_append.mpr (Or.inr (List.mem_cons_self _ _))
        | cons b2 r2' =>
          have hd := congrArg String.data heq
          rw [hjoin, hjoin] at hd
          obtain ⟨hab, hJ⟩ := peelChar '|' a.data b.data _ _
            (h1 a (List.mem_cons_self _ _)).2 (h2 b (List.mem_cons_self _ _)).2 hd
          have hr := ih (b2 :: r2')
            (fun x hx => h1 x (List.mem_cons_of_mem _ hx))
            (fun x hx => h2 x (List.mem_cons_of_mem _ hx)) (str_ext hJ)
          rw [str_ext hab, hr]

/-! ## Cache-key components and injectivity of the rendered key -/

theorem searchBy_no_colon (b : SearchBy) : ':' ∉ (SearchBy.toStr b).data := by
  cases b <;> decide

theorem searchBy_toStr_inj :
    ∀ b1 b2 : SearchBy, SearchBy.toStr b1 = SearchBy.toStr b2 → b1 = b2 := by decide

theorem availStr_no_colon (b : Bool) : ':' ∉ (availStr b).data := by
  cases b <;> decide

theorem availStr_inj : ∀ b1 b2 : Bool, availStr b1 = availStr b2 → b1 = b2 := by decide

theorem sortKeyStr_inj :
    ∀ o1 o2 : Option (SortableField × SortDir), sortKeyStr o1 = sortKeyStr o2 → o1 = o2 := by
  decide

/-- The character string of a rendered key, as nested delimited components. -/
theorem renderNorm_data (n : NormQuery) :
    (renderNorm n).data = n.criteria.data ++ ':' :: ':' ::
      ((SearchBy.toStr n.searchBy).data ++ ':' :: ':' ::
      ((joinSep "|" n.branches).data ++ ':' :: ':' ::
      ((availStr n.onlyAvailable).data ++ ':' :: ':' ::
      ('p' :: (Int.repr n.page).data ++ ':' :: ':' ::
      ('s' :: (Int.repr n.size).data ++ ':' :: ':' ::
      (sortKeyStr n.sort).data))))) := by
  rw [show renderNorm n
      = n.criteria ++ "::" ++ (SearchBy.toStr n.searchBy ++ "::" ++ (joinSep "|" n.branches
        ++ "::" ++ (availStr n.onlyAvailable ++ "::" ++ ("p" ++ Int.repr n.page ++ "::"
        ++ ("s" ++ Int.repr n.size ++ "::" ++ sortKeyStr n.sort))))) from rfl]
  simp only [String.data_append, show ("::" : String).data = [':', ':'] from rfl,
    show ("p" : String).data = ['p'] from rfl, show ("s" : String).data = ['s'] from rfl,
    List.append_assoc, List.cons_append, List.nil_append]

/-- Injectivity of the rendered key on delimiter-free normalized tuples. -/
theorem renderNorm_inj (n1 n2 : NormQuery) (hg1 : goodNorm n1) (hg2 : goodNorm n2)
    (h : renderNorm n1 = renderNorm n2) : n1 = n2 := by
  have hpcol : ∀ (c : Char) (i : Int), (':' : Char) ≠ c → ':' ∉ (c :: (Int.repr i).data) := by
    intro c i hneq hmem
    rcases List.mem_cons.mp hmem with hh | hh
    · exact hneq hh
    · exact intRepr_no_colon _ hh
  have hbr1 : ':' ∉ (joinSep "|" n1.branches).data :=
    joinSep_not_mem "|" ':' n1.branches (by decide) (fun b hb => (hg1.2 b hb).2.1)
  have hbr2 : ':' ∉ (joinSep "|" n2.branches).data :=
    joinSep_not_mem "|" ':' n2.branches (by decide) (fun b hb => (hg2.2 b hb).2.1)
  have hd := congrArg String.data h
  rw [renderNorm_data, renderNorm_data] at hd
  obtain ⟨hcrit, h1⟩ := peelChar ':' _ _ _ _ hg1.1 hg2.1 hd
  injection h1 with _ h1
  obtain ⟨hby, h2⟩ := peelChar ':' _ _ _ _ (searchBy_no_colon n1.searchBy)
    (searchBy_no_colon n2.searchBy) h1
  injection h2 with _ h2
  obtain ⟨hbr, h3⟩ := peelChar ':' _ _ _ _ hbr1 hbr2 h2
  injection h3 with _ h3
  obtain ⟨hav, h4⟩ := peelChar ':' _ _ _ _ (availStr_no_colon _) (availStr_no_colon _) h3
  injection h4 with _ h4
  obtain ⟨hpg, h5⟩ := peelChar ':' _ _ _ _ (hpcol 'p' n1.page (by decide))
    (hpcol 'p' n2.page (by decide)) h4
  injection h5 with _ h5
  obtain ⟨hsz, h6⟩ := peelChar ':' _ _ _ _ (hpcol 's' n1.size (by decide))
    (hpcol 's' n2.size (by decide)) h5
  injection h6 with _ h6
  have e1 : n1.criteria = n2.criteria := str_ext hcrit
  have e2 : n1.searchBy = n2.searchBy := searchBy_toStr_inj _ _ (str_ext hby)
  have e3 : n1.branches = n2.branches := joinSep_bar_inj _ _
    (fun b hb => ⟨(hg1.2 b hb).1, (hg1.2 b hb).2.2⟩)
    (fun b hb => ⟨(hg2.2 b hb).1, (hg2.2 b hb).2.2⟩) (str_ext hbr)
  have e4 : n1.onlyAvailable = n2.onlyAvailable := availStr_inj _ _ (str_ext hav)
  have e5 : n1.page = n2.page := by
    injection hpg with _ hpg'
    exact intRepr_inj (str_ext hpg')
  have e6 : n1.size = n2.size := by
    injection hsz with _ hsz'
    exact intRepr_inj (str_ext hsz')
  have e7 : n1.sort = n2.sort := sortKeyStr_inj _ _ (str_ext h6)
  cases n1
  cases n2
  simp only [NormQuery.mk.injEq]
  exact ⟨e1, e2, e3, e4, e5, e6, e7⟩

/-- Delimiter-freedom carries from a query to its normalized tuple. -/
theorem goodQuery_goodNorm (q : InventorySearchQuery) (hg : goodQuery q) :
    goodNorm (normQuery q) := by
  refine ⟨hg.1, ?_⟩
  intro b hb
  have hb' : b ∈ q.branches.map (fun b => toUpperStr (trimStr b)) :=
    (List.perm_insertionSort strLeRel _).subset hb
  obtain ⟨b0, hb0, rfl⟩ := List.mem_map.mp hb'
  exact hg.2 b0 hb0

/-- Sorting by the total order `strLeRel` maps permutable lists to the same
sorted list. -/
theorem insertionSort_perm_eq {l1 l2 : List String} (hp : l1.Perm l2) :
    List.insertionSort strLeRel l1 = List.insertionSort strLeRel l2 :=
  List.eq_of_perm_of_sorted
    ((List.perm_insertionSort _ _).trans (hp.trans (List.perm_insertionSort _ _).symm))
    (List.sorted_insertionSort _ _) (List.sorted_insertionSort _ _)

/-- `C3` counterexample: the queries with branch sets `["A|B"]` and
`["A", "B"]` differ in a result-affecting field — on a one-record store the
searches they denote return different results — yet they derive the *same*
cache key, because the branch code `A|B` contains the `|` join delimiter. -/
theorem cacheKey_collision_cex :
    cacheKey ⟨"p", .partNumber, ["A|B"], false, 0, 20, none⟩
      = cacheKey ⟨"p", .partNumber, ["A", "B"], false, 0, 20, none⟩
    ∧ (["A|B"] : List String) ≠ ["A", "B"]
    ∧ searchInventory [⟨some "P", none, none, some "A", 1, none, none, none⟩]
        (toSearchRequest ⟨"p", .partNumber, ["A|B"], false, 0, 20, none⟩)
      ≠ searchInventory [⟨some "P", none, none, some "A", 1, none, none, none⟩]
        (toSearchRequest ⟨"p", .partNumber, ["A", "B"], false, 0, 20, none⟩) :=
  ⟨by decide, by decide, by decide⟩

/-- `C3` as amended, restricted as the spec itself assumes (§4.2: delimiters
"guaranteed absent" from components — no `:` in the normalized criteria, and
branch codes non-empty without `:` or `|`): two queries that are semantically
identical up to branch order and surrounding criteria whitespace always get
the same key, and for delimiter-free queries keys are equal exactly when the
normalized tuples (criteria, by, branch set, availability, page, size, sort)
are equal — so any difference in a result-affecting field gives different
keys. -/
theorem cacheKey_norm_correct :
    (∀ q1 q2 : InventorySearchQuery,
      trimStr q1.criteria = trimStr q2.criteria →
      q1.searchBy = q2.searchBy →
      q1.branches.Perm q2.branches →
      q1.onlyAvailable = q2.onlyAvailable →
      q1.page = q2.page → q1.size = q2.size → q1.sort = q2.sort →
      cacheKey q1 = cacheKey q2)
    ∧ ∀ q1 q2 : InventorySearchQuery, goodQuery q1 → goodQuery q2 →
        (cacheKey q1 = cacheKey q2 ↔ normQuery q1 = normQuery q2) := by
  have hnormeq : ∀ q1 q2 : InventorySearchQuery,
      trimStr q1.criteria = trimStr q2.criteria → q1.searchBy = q2.searchBy →
      q1.branches.Perm q2.branches → q1.onlyAvailable = q2.onlyAvailable →
      q1.page = q2.page → q1.size = q2.size → q1.sort = q2.sort →
      normQuery q1 = normQuery q2 := by
    intro q1 q2 hc hb hp ha hpg hsz hso
    unfold normQuery
    rw [hc, hb, ha, hpg, hsz, hso, insertionSort_perm_eq (hp.map _)]
  constructor
  · intro q1 q2 hc hb hp ha hpg hsz hso
    unfold cacheKey
    rw [hnormeq q1 q2 hc hb hp ha hpg hsz hso]
  · intro q1 q2 hg1 hg2
    constructor
    · intro h
      exact renderNorm_inj _ _ (goodQuery_goodNorm q1 hg1) (goodQuery_goodNorm q2 hg2) h
    · intro h
      unfold cacheKey
      rw [h]

/-- Witness for `cacheKey_norm_correct`: branch-order and criteria-whitespace
variants share a key, and the key equivalence holds at concrete good queries. -/
theorem cacheKey_norm_correct_witness :
    cacheKey ⟨" Foo ", .partNumber, ["sea", "PDX"], true, 1, 20, some (.branch, .desc)⟩
      = cacheKey ⟨"Foo", .partNumber, ["PDX", "sea"], true, 1, 20, some (.branch, .desc)⟩
    ∧ (cacheKey ⟨"x", .description, ["SEA"], false, 0, 20, none⟩
        = cacheKey ⟨"y", .description, ["SEA"], false, 0, 20, none⟩
      ↔ normQuery ⟨"x", .description, ["SEA"], false, 0, 20, none⟩
        = normQuery ⟨"y", .description, ["SEA"], false, 0, 20, none⟩) :=
  ⟨cacheKey_norm_correct.1 _ _ (by decide) rfl (by decide) rfl rfl rfl rfl,
    cacheKey_norm_correct.2 _ _ (by decide) (by decide)⟩

end InventorySearch
